import Mathlib

/-!
Verification of the lazycommit diff-to-prompt core.

The Go sources embedded here are `src/cmd/lazycommit/main.go` (the `run`
function and its helpers) and the variant of the same file embedded in
`src/.pre-commit-config.yaml` (which additionally defines `cleanAIMessage`).
`BuildPrompt` is called by `run` but its definition is not part of the
sources, so the prompt compiler is modelled from the design document.
-/

/-- Message role, from the openai chat message roles used by `run`
(`ChatMessageRoleSystem`, `ChatMessageRoleUser`, `ChatMessageRoleAssistant`). -/
inductive Role where
  | system
  | user
  | assistant
deriving DecidableEq, Repr

/-- One chat message, from `openai.ChatCompletionMessage` as used by `run`:
a role tag and text content. -/
structure Message where
  role : Role
  content : String
deriving DecidableEq, Repr

/-- Go errors as `run` manipulates them: either a base error (such as the one
`errors.New` or `exec` produces) or a wrapping via `fmt.Errorf("...: %w", err)`
that adds a context string in front of an inner error. -/
inductive GoError where
  | base (s : String)
  | wrap (ctx : String) (e : GoError)
deriving DecidableEq, Repr

/-- The caller-controlled fields of `runOptions` that `run` reads
(`client`, `openAIBaseURL` and `model` only parameterize the transport). -/
structure RunOpts where
  dryRun : Bool
  amend : Bool
  ref : String
  context : List String
deriving DecidableEq, Repr

/-- Outcomes of the external calls `run` makes, abstracted as data:
`os.Getwd`, `git rev-parse HEAD`, `git rev-parse <ref>`, `BuildPrompt`,
the chat-completion stream (its fully assembled text on success), and
`git commit`. -/
structure RunEnv where
  getwd : Except GoError String
  lastCommitHash : Except GoError String
  resolveRef : String → Except GoError String
  buildPrompt : String → String → Bool → Nat → Except GoError (List Message)
  streamText : Except GoError String
  commitResult : Except GoError Unit

/-- Observable effects of one `run` invocation, in order. -/
inductive Event where
  | getLastHash
  | resolveRefCall (ref : String)
  | buildPromptCall (workdir hash : String) (amend : Bool) (budget : Nat)
  | netCall (msgs : List Message)
  | printDryRun (cmdLine : String)
  | execCommit (args : List String)
deriving DecidableEq, Repr

/-- The system message `run` prepends to the caller-supplied context strings
(main.go line 95). -/
def ctxPreamble : String :=
  "The user has provided additional context that MUST be included in the commit message"

/-- The context-appending step of `run` (main.go lines 92-103): when the
context list is non-empty, append one system preamble message and then each
context string as its own user message; otherwise leave the list unchanged. -/
def appendContext (msgs : List Message) (ctxs : List String) : List Message :=
  if ctxs.length > 0 then
    msgs ++ (⟨Role.system, ctxPreamble⟩ :: ctxs.map (fun c => ⟨Role.user, c⟩))
  else
    msgs

/-- Go's `filepath.Base`: last non-empty path element, "." for the empty
string, "/" when the path is all slashes. -/
def filepathBase (p : String) : String :=
  if p = "" then "."
  else (((p.splitOn "/").filter (fun s => s ≠ "")).getLastD "/")

/-- Characters Go's `shellescape` package leaves unquoted: the regexp class
word characters plus at sign, percent, plus, equals, colon, comma, dot,
slash and dash. -/
def shellSafeChar (c : Char) : Bool :=
  c.isAlphanum || c = '_' || c = '@' || c = '%' || c = '+' || c = '=' ||
    c = ':' || c = ',' || c = '.' || c = '/' || c = '-'

/-- Go's `shellescape.Quote`: the empty string becomes a pair of single quotes, a
string with any unsafe character is wrapped in single quotes with each inner
single quote escaped, and a safe string is returned unchanged. -/
def shellQuote (s : String) : String :=
  if s.length = 0 then "''"
  else if s.any (fun c => ¬ shellSafeChar c) then
    "'" ++ (s.replace "'" "'\"'\"'") ++ "'"
  else s

/-- The `formatShellCommand` helper from main.go lines 54-62: the base name of the
command path followed by each argument after argv0, shell-quoted and
space-separated. -/
def formatShellCommand (path : String) (args : List String) : String :=
  filepathBase path ++ String.join (args.tail.map (fun a => " " ++ shellQuote a))

/-- The hash-determination step of `run` (main.go lines 74-85), reached only
after the ref/amend conflict check: for amend, `getLastCommitHash`; for a
non-empty ref, `resolveRef` with its error wrapped as
`fmt.Errorf("resolve ref %q: %w", ...)`; otherwise the empty hash. Returns
the result together with the external calls made. -/
def collectHash (opts : RunOpts) (env : RunEnv) :
    Except GoError String × List Event :=
  if opts.amend then
    match env.lastCommitHash with
    | .error e => (.error e, [.getLastHash])
    | .ok h => (.ok h, [.getLastHash])
  else if opts.ref ≠ "" then
    match env.resolveRef opts.ref with
    | .error e =>
        (.error (.wrap ("resolve ref \"" ++ opts.ref ++ "\"") e),
         [.resolveRefCall opts.ref])
    | .ok h => (.ok h, [.resolveRefCall opts.ref])
  else (.ok "", [])

/-- The `run` function of main.go lines 64-156, as a function from the
caller's options and the outcomes of its external calls to its returned
error value and the ordered list of observable effects. Control flow is
translated branch by branch: getwd, the ref/amend conflict check, hash
determination, `BuildPrompt` with the constant budget 128000, the
context-appending step, the chat-completion stream creation (the network
call), then either the dry-run printout or the `git commit` execution. -/
def runGo (opts : RunOpts) (env : RunEnv) :
    Except GoError Unit × List Event :=
  match env.getwd with
  | .error e => (.error e, [])
  | .ok workdir =>
    if opts.ref ≠ "" ∧ opts.amend then
      (.error (.base "cannot use both [ref] and --amend"), [])
    else
      match collectHash opts env with
      | (.error e, evs) => (.error e, evs)
      | (.ok hash, evs) =>
        let evs := evs ++ [.buildPromptCall workdir hash opts.amend 128000]
        match env.buildPrompt workdir hash opts.amend 128000 with
        | .error e => (.error e, evs)
        | .ok bp =>
          let msgs := appendContext bp opts.context
          let evs := evs ++ [.netCall msgs]
          match env.streamText with
          | .error e => (.error e, evs)
          | .ok text =>
            let args := ["git", "commit", "-m", text] ++
              (if opts.amend then ["--amend"] else [])
            if opts.dryRun then
              (.ok (), evs ++ [.printDryRun (formatShellCommand "git" args)])
            else
              match env.commitResult with
              | .error e => (.error e, evs ++ [.execCommit args])
              | .ok _ => (.ok (), evs ++ [.execCommit args])

/-- Go's `strings.HasPrefix`, on the character lists underlying the
strings. -/
def hasPrefixStr (s pre : String) : Bool :=
  pre.data.isPrefixOf s.data

/-- Go's `strings.HasSuffix`, on the character lists underlying the
strings. -/
def hasSuffixStr (s suf : String) : Bool :=
  suf.data.isSuffixOf s.data

/-- Go's `strings.TrimSuffix`: drop the suffix when present, else unchanged. -/
def trimSuffixStr (s suf : String) : String :=
  if hasSuffixStr s suf then
    String.mk (s.data.take (s.data.length - suf.data.length))
  else s

/-- Go's `strings.TrimPrefix`: drop the prefix when present, else unchanged. -/
def trimPrefixStr (s pre : String) : String :=
  if hasPrefixStr s pre then String.mk (s.data.drop pre.data.length) else s

/-- Go's `strings.TrimSpace`: drop leading and trailing whitespace. -/
def trimSpaceStr (s : String) : String :=
  String.mk
    (((s.data.dropWhile Char.isWhitespace).reverse.dropWhile
        Char.isWhitespace).reverse)

/-- The `cleanAIMessage` helper from the main.go variant embedded in
`.pre-commit-config.yaml` (lines 125-134): when the message starts with a
code fence, trim a trailing and then a leading fence, and always trim
surrounding whitespace. -/
def cleanAIMessage (msg : String) : String :=
  let m := if hasPrefixStr msg "```" then
      trimPrefixStr (trimSuffixStr msg "```") "```"
    else msg
  trimSpaceStr m

/-- Modelled from the spec: FileChange change kinds (§3). `BuildPrompt` is
not among the sources, so the compiler-side data model follows the design
document. -/
inductive ChangeKind where
  | added
  | modified
  | deleted
  | renamed
deriving DecidableEq, Repr

/-- Modelled from the spec: one file's contribution to a ChangeSet (§3):
path, change kind, textual diff body (may be empty for binary files), and
size in bytes. -/
structure FileChange where
  path : String
  kind : ChangeKind
  diff : String
  size : Nat
deriving DecidableEq, Repr

/-- Modelled from the spec: target kinds of a ChangeSet (§3). -/
inductive TargetKind where
  | workingTree
  | commit
  | amend
deriving DecidableEq, Repr

/-- Modelled from the spec: the unit of work to summarize (§3): target kind,
resolved reference (empty for working tree), ordered per-file changes. -/
structure ChangeSet where
  target : TargetKind
  ref : String
  files : List FileChange
deriving DecidableEq, Repr

/-- Modelled from the spec: the Token Estimator (§4.2) — a pure,
deterministic, monotonic heuristic; the spec allows an estimate proportional
to character count, so one estimated token per character is used. -/
def estimate (s : String) : Nat := s.length

/-- Modelled from the spec: the fixed system message describing the desired
output format (§4.3 step 1). -/
def systemContent : String :=
  "Write a concise, conventional commit style message for the following changes."

/-- Modelled from the spec: the minimum fixed-message cost reserved for the
system message (§4.3 step 1). -/
def minFixedCost : Nat := estimate systemContent

/-- Modelled from the spec: a one-line rendering of one entry of the file
list (§4.3 step 2). -/
def fileLine (f : FileChange) : String :=
  (match f.kind with
   | ChangeKind.added => "added "
   | ChangeKind.modified => "modified "
   | ChangeKind.deleted => "deleted "
   | ChangeKind.renamed => "renamed ") ++ f.path ++ "\n"

/-- Modelled from the spec: the repository-context text for a tail of the
file list, with the "…and N more files" marker accounting for the dropped
oldest-listed files (§4.3 step 2). -/
def fileListText (dropped : Nat) (files : List FileChange) : String :=
  String.join (files.map fileLine) ++
    (if dropped = 0 then "" else "...and " ++ toString dropped ++ " more files")

/-- Modelled from the spec: truncation of the file list (§4.3 step 2) —
oldest-listed files are dropped first until the rendering fits the remaining
budget; when not even the bare marker fits, the context text is empty. -/
def shrinkFileList (remaining : Nat) (dropped : Nat) :
    List FileChange → String
  | [] =>
    if estimate (fileListText dropped []) ≤ remaining then
      fileListText dropped []
    else ""
  | f :: rest =>
    if estimate (fileListText dropped (f :: rest)) ≤ remaining then
      fileListText dropped (f :: rest)
    else shrinkFileList remaining (dropped + 1) rest

/-- Modelled from the spec: the diff-body piece contributed by one file to
the final user message (§4.3 step 3). -/
def diffPiece (f : FileChange) : String :=
  "--- " ++ f.path ++ "\n" ++ f.diff ++ "\n"

/-- Modelled from the spec: the one-line placeholder replacing an omitted
diff (§4.3 step 3, policy (a)). -/
def omittedPlaceholder (f : FileChange) : String :=
  "[diff omitted - exceeds budget: " ++ f.path ++ "]\n"

/-- Modelled from the spec: greedy per-file diff placement (§4.3 step 3) —
in collection order, a file's diff is included in full when it fits the
remaining budget, otherwise replaced by the placeholder when that fits,
otherwise skipped. Returns the assembled content and the leftover budget. -/
def buildDiffs : List FileChange → Nat → String × Nat
  | [], r => ("", r)
  | f :: rest, r =>
    if estimate (diffPiece f) ≤ r then
      let p := buildDiffs rest (r - estimate (diffPiece f))
      (diffPiece f ++ p.1, p.2)
    else if estimate (omittedPlaceholder f) ≤ r then
      let p := buildDiffs rest (r - estimate (omittedPlaceholder f))
      (omittedPlaceholder f ++ p.1, p.2)
    else
      buildDiffs rest r

/-- Modelled from the spec: caller-supplied context strings appended as
separate user messages (§4.3 step 4) — a string that fits the remaining
budget becomes a user message, one that does not is dropped entirely and
recorded as a warning. Returns the messages, the warnings (the dropped
strings), and the leftover budget. -/
def addContexts : List String → Nat → List Message × List String × Nat
  | [], r => ([], [], r)
  | c :: rest, r =>
    if estimate c ≤ r then
      let p := addContexts rest (r - estimate c)
      (⟨Role.user, c⟩ :: p.1, p.2.1, p.2.2)
    else
      let p := addContexts rest r
      (p.1, c :: p.2.1, p.2.2)

/-- Modelled from the spec: compilation failure cases (§4.3, §7). -/
inductive CompileError where
  | budgetTooSmall
deriving DecidableEq, Repr

/-- Total estimated token cost of a message list (§3 invariant). -/
def msgsCost (ms : List Message) : Nat :=
  (ms.map (fun m => estimate m.content)).sum

/-- Modelled from the spec: `compile(changeSet, budget) -> CompiledPrompt`
(§4.3) — reserve the fixed system message first (failing with
`BudgetTooSmallError` when the budget is below its cost), then the possibly
truncated file list as a second message, then the greedy per-file diff
content as the final user message, then caller-supplied context strings as
separate user messages; returns the prompt and the non-fatal warnings. -/
def compile (cs : ChangeSet) (budget : Nat) (ctxs : List String) :
    Except CompileError (List Message × List String) :=
  if budget < minFixedCost then .error .budgetTooSmall
  else
    let r0 := budget - minFixedCost
    let fl := shrinkFileList r0 0 cs.files
    let r1 := r0 - estimate fl
    let ds := buildDiffs cs.files r1
    let cx := addContexts ctxs ds.2
    .ok (⟨Role.system, systemContent⟩ :: ⟨Role.user, fl⟩ ::
          ⟨Role.user, ds.1⟩ :: cx.1,
         cx.2.1)

/-! ## Budget lemmas for the modelled compiler -/

theorem shrinkFileList_le (r : Nat) :
    ∀ (fs : List FileChange) (d : Nat), estimate (shrinkFileList r d fs) ≤ r := by
  intro fs
  induction fs with
  | nil =>
    intro d
    unfold shrinkFileList
    split
    · assumption
    · simp [estimate]
  | cons f rest ih =>
    intro d
    unfold shrinkFileList
    split
    · assumption
    · exact ih (d + 1)

theorem buildDiffs_le :
    ∀ (fs : List FileChange) (r : Nat),
      estimate (buildDiffs fs r).1 + (buildDiffs fs r).2 ≤ r := by
  intro fs
  induction fs with
  | nil => intro r; simp [buildDiffs, estimate]
  | cons f rest ih =>
    intro r
    unfold buildDiffs
    split
    · have h := ih (r - estimate (diffPiece f))
      simp only [estimate, String.length_append] at *
      omega
    · split
      · have h := ih (r - estimate (omittedPlaceholder f))
        simp only [estimate, String.length_append] at *
        omega
      · exact ih r

theorem addContexts_le :
    ∀ (cs : List String) (r : Nat),
      msgsCost (addContexts cs r).1 + (addContexts cs r).2.2 ≤ r := by
  intro cs
  induction cs with
  | nil => intro r; simp [addContexts, msgsCost]
  | cons c rest ih =>
    intro r
    unfold addContexts
    split
    · have h := ih (r - estimate c)
      simp only [msgsCost, List.map_cons, List.sum_cons] at *
      omega
    · exact ih r

theorem msgsCost_cons (ro : Role) (co : String) (ms : List Message) :
    msgsCost (⟨ro, co⟩ :: ms) = estimate co + msgsCost ms := by
  simp [msgsCost, estimate]

theorem compiled_cost_le (files : List FileChange) (ctxs : List String)
    (r0 : Nat) :
    minFixedCost +
      (estimate (shrinkFileList r0 0 files) +
        (estimate (buildDiffs files
            (r0 - estimate (shrinkFileList r0 0 files))).1 +
          msgsCost (addContexts ctxs
            (buildDiffs files
              (r0 - estimate (shrinkFileList r0 0 files))).2).1)) ≤
      minFixedCost + r0 := by
  set fl := shrinkFileList r0 0 files with hfl
  have h1 : estimate fl ≤ r0 := shrinkFileList_le r0 files 0
  set ds := buildDiffs files (r0 - estimate fl) with hds
  have h2 : estimate ds.1 + ds.2 ≤ r0 - estimate fl := buildDiffs_le _ _
  have h3 : msgsCost (addContexts ctxs ds.2).1 +
      (addContexts ctxs ds.2).2.2 ≤ ds.2 := addContexts_le _ _
  omega

/-- C1: for every ChangeSet and every budget at least the minimum
fixed-message cost, `compile` returns a CompiledPrompt whose total estimated
token cost is at most the budget. -/
theorem compile_within_budget (cs : ChangeSet) (budget : Nat)
    (ctxs : List String) (h : minFixedCost ≤ budget) :
    ∃ p w, compile cs budget ctxs = .ok (p, w) ∧ msgsCost p ≤ budget := by
  unfold compile
  rw [if_neg (by omega)]
  refine ⟨_, _, rfl, ?_⟩
  dsimp only
  rw [msgsCost_cons, msgsCost_cons, msgsCost_cons]
  have hc := compiled_cost_le cs.files ctxs (budget - minFixedCost)
  have he : estimate systemContent = minFixedCost := rfl
  omega

def csW : ChangeSet :=
  ⟨TargetKind.workingTree, "",
   [⟨"a.txt", ChangeKind.modified, "+hello\n-world\n", 14⟩]⟩

/-- Witness for C1 at a concrete ChangeSet, budget 500 and one context
string. -/
theorem compile_within_budget_witness :
    minFixedCost ≤ 500 ∧
      ∃ p w, compile csW 500 ["touches the greeting"] = .ok (p, w) ∧
        msgsCost p ≤ 500 :=
  ⟨by decide, compile_within_budget csW 500 ["touches the greeting"] (by decide)⟩

/-! ## Control-flow lemmas for `runGo` -/

theorem collectHash_events (opts : RunOpts) (env : RunEnv) :
    (collectHash opts env).2 = [Event.getLastHash] ∨
    (collectHash opts env).2 = [Event.resolveRefCall opts.ref] ∨
    (collectHash opts env).2 = [] := by
  unfold collectHash
  split
  · cases env.lastCommitHash <;> simp
  · split
    · cases env.resolveRef opts.ref <;> simp
    · simp

theorem collectHash_no_netCall (opts : RunOpts) (env : RunEnv)
    (m : List Message) : Event.netCall m ∉ (collectHash opts env).2 := by
  rcases collectHash_events opts env with h | h | h <;> simp [h]

/-- Inversion for the network call: whenever `run` creates the
chat-completion stream, the working-directory lookup, the hash step and
`BuildPrompt` all succeeded, and the message list sent is exactly the
compiled prompt with the context-appending step applied. -/
theorem runGo_netCall_inv (opts : RunOpts) (env : RunEnv)
    (m : List Message) (h : Event.netCall m ∈ (runGo opts env).2) :
    ∃ w hash bp, env.getwd = .ok w ∧ (collectHash opts env).1 = .ok hash ∧
      env.buildPrompt w hash opts.amend 128000 = .ok bp ∧
      m = appendContext bp opts.context := by
  unfold runGo at h
  cases hg : env.getwd with
  | error e => rw [hg] at h; simp at h
  | ok w =>
    rw [hg] at h
    dsimp only at h
    by_cases hc : opts.ref ≠ "" ∧ opts.amend = true
    · rw [if_pos hc] at h; simp at h
    · rw [if_neg hc] at h
      have hnc := collectHash_no_netCall opts env m
      cases hch : collectHash opts env with
      | mk res evs =>
        rw [hch] at h
        rw [hch] at hnc
        simp only at hnc
        cases res with
        | error e => exact absurd h hnc
        | ok hash =>
          dsimp only at h
          cases hb : env.buildPrompt w hash opts.amend 128000 with
          | error e =>
            rw [hb] at h
            simp only [List.mem_append, List.mem_singleton] at h
            rcases h with h | h
            · exact absurd h hnc
            · simp at h
          | ok bp =>
            rw [hb] at h
            dsimp only at h
            refine ⟨w, hash, bp, rfl, by simp [hch], hb, ?_⟩
            cases hs : env.streamText with
            | error e =>
              rw [hs] at h
              simp only [List.mem_append, List.mem_singleton] at h
              rcases h with (h | h) | h
              · exact absurd h hnc
              · simp at h
              · injection h
            | ok text =>
              rw [hs] at h
              dsimp only at h
              by_cases hd : opts.dryRun = true
              · rw [if_pos hd] at h
                simp only [List.mem_append, List.mem_singleton] at h
                rcases h with ((h | h) | h) | h
                · exact absurd h hnc
                · simp at h
                · injection h
                · simp at h
              · rw [if_neg hd] at h
                cases hcm : env.commitResult with
                | error e =>
                  rw [hcm] at h
                  simp only [List.mem_append, List.mem_singleton] at h
                  rcases h with ((h | h) | h) | h
                  · exact absurd h hnc
                  · simp at h
                  · injection h
                  · simp at h
                | ok u =>
                  rw [hcm] at h
                  simp only [List.mem_append, List.mem_singleton] at h
                  rcases h with ((h | h) | h) | h
                  · exact absurd h hnc
                  · simp at h
                  · injection h
                  · simp at h

/-- A fully successful environment used as a concrete input for witnesses
and counterexamples. -/
def envOk : RunEnv where
  getwd := .ok "/repo"
  lastCommitHash := .ok "abc123"
  resolveRef := fun _ => .ok "def456"
  buildPrompt := fun _ _ _ _ =>
    .ok [⟨Role.system, systemContent⟩, ⟨Role.user, "diff body"⟩]
  streamText := .ok "fix: adjust greeting"
  commitResult := .ok ()

/-- C4: whenever the core fails — the hash step fails, or `BuildPrompt`
fails on the collected inputs — the chat-completion transport is never
invoked: no network-call event appears in the run's effect trace. -/
theorem run_core_failure_no_netCall (opts : RunOpts) (env : RunEnv)
    (hfail : ∀ w hash, env.getwd = .ok w →
      (collectHash opts env).1 = .ok hash →
      ∃ e, env.buildPrompt w hash opts.amend 128000 = .error e) :
    ∀ m, Event.netCall m ∉ (runGo opts env).2 := by
  intro m h
  obtain ⟨w, hash, bp, hg, hch, hb, _⟩ := runGo_netCall_inv opts env m h
  obtain ⟨e, he⟩ := hfail w hash hg hch
  rw [he] at hb
  exact Except.noConfusion hb

/-- An environment whose prompt compilation always fails. -/
def envCompileFail : RunEnv :=
  { envOk with buildPrompt := fun _ _ _ _ => .error (.base "no changes staged") }

/-- Witness for C4: with a failing `BuildPrompt`, no network call occurs. -/
theorem run_core_failure_no_netCall_witness :
    (∀ w hash, envCompileFail.getwd = .ok w →
      (collectHash ⟨false, false, "", []⟩ envCompileFail).1 = .ok hash →
      ∃ e, envCompileFail.buildPrompt w hash false 128000 = .error e) ∧
    ∀ m, Event.netCall m ∉ (runGo ⟨false, false, "", []⟩ envCompileFail).2 :=
  ⟨fun _ _ _ _ => ⟨.base "no changes staged", rfl⟩,
   run_core_failure_no_netCall ⟨false, false, "", []⟩ envCompileFail
     (fun _ _ _ _ => ⟨.base "no changes staged", rfl⟩)⟩

/-- C8: when both a ref argument and the amend flag are supplied (and the
working-directory lookup succeeds), `run` returns the error "cannot use both
[ref] and --amend" with an empty effect trace: no reference resolution, no
change collection, no network call. -/
theorem run_ref_amend_conflict (opts : RunOpts) (env : RunEnv) (w : String)
    (h1 : env.getwd = .ok w) (h2 : opts.ref ≠ "") (h3 : opts.amend = true) :
    runGo opts env =
      (.error (.base "cannot use both [ref] and --amend"), []) := by
  unfold runGo
  rw [h1]
  dsimp only
  rw [if_pos ⟨h2, h3⟩]

/-- Witness for C8: ref "HEAD~1" together with --amend at a concrete
environment. -/
theorem run_ref_amend_conflict_witness :
    envOk.getwd = .ok "/repo" ∧ ("HEAD~1" : String) ≠ "" ∧
      (⟨false, true, "HEAD~1", []⟩ : RunOpts).amend = true ∧
      runGo ⟨false, true, "HEAD~1", []⟩ envOk =
        (.error (.base "cannot use both [ref] and --amend"), []) :=
  ⟨rfl, by decide, rfl,
   run_ref_amend_conflict ⟨false, true, "HEAD~1", []⟩ envOk "/repo" rfl
     (by decide) rfl⟩

/-- C10: with an empty caller-supplied context list, the message list handed
to the chat-completion transport is exactly the list `BuildPrompt` returned:
nothing is added, removed or reordered. -/
theorem run_empty_context_exact_prompt (opts : RunOpts) (env : RunEnv)
    (m : List Message) (h0 : opts.context = [])
    (h : Event.netCall m ∈ (runGo opts env).2) :
    ∃ w hash, env.buildPrompt w hash opts.amend 128000 = .ok m := by
  obtain ⟨w, hash, bp, _, _, hb, hm⟩ := runGo_netCall_inv opts env m h
  have hmb : m = bp := by rw [hm, h0]; simp [appendContext]
  exact ⟨w, hash, hmb ▸ hb⟩

/-- Witness for C10: a concrete successful run with no context strings sends
exactly the compiled prompt. -/
theorem run_empty_context_exact_prompt_witness :
    (⟨true, false, "", []⟩ : RunOpts).context = [] ∧
    (Event.netCall [⟨Role.system, systemContent⟩, ⟨Role.user, "diff body"⟩] ∈
      (runGo ⟨true, false, "", []⟩ envOk).2) ∧
    ∃ w hash, envOk.buildPrompt w hash false 128000 =
      .ok [⟨Role.system, systemContent⟩, ⟨Role.user, "diff body"⟩] :=
  ⟨rfl, by decide,
   run_empty_context_exact_prompt ⟨true, false, "", []⟩ envOk _ rfl (by decide)⟩

/-- C9: with the dry-run flag set, a run that reaches the application stage
prints the shell-escaped commit command and returns nil, and the git commit
command is never executed (no exec event in the trace), so repository
history is unchanged. -/
theorem run_dry_run_prints_no_commit (opts : RunOpts) (env : RunEnv)
    (w hash text : String) (bp : List Message)
    (hd : opts.dryRun = true) (hg : env.getwd = .ok w)
    (hc : ¬(opts.ref ≠ "" ∧ opts.amend = true))
    (hh : (collectHash opts env).1 = .ok hash)
    (hb : env.buildPrompt w hash opts.amend 128000 = .ok bp)
    (hs : env.streamText = .ok text) :
    (runGo opts env).1 = .ok () ∧
    (Event.printDryRun (formatShellCommand "git"
        (["git", "commit", "-m", text] ++
          if opts.amend = true then ["--amend"] else [])) ∈
      (runGo opts env).2) ∧
    ∀ a, Event.execCommit a ∉ (runGo opts env).2 := by
  have hevs := collectHash_events opts env
  unfold runGo
  rw [hg]
  dsimp only
  rw [if_neg hc]
  cases hch : collectHash opts env with
  | mk res evs =>
    rw [hch] at hh hevs
    simp only at hh hevs
    cases res with
    | error e => exact absurd hh (by simp)
    | ok hash' =>
      have : hash' = hash := by simpa using hh
      subst this
      dsimp only
      rw [hb]
      dsimp only
      rw [hs]
      dsimp only
      rw [if_pos hd]
      refine ⟨rfl, by simp, ?_⟩
      intro a
      rcases hevs with he | he | he <;> subst he <;> simp

/-- Witness for C9: a concrete dry run prints the escaped command, succeeds,
and executes nothing. -/
theorem run_dry_run_prints_no_commit_witness :
    (⟨true, false, "", []⟩ : RunOpts).dryRun = true ∧
    envOk.getwd = .ok "/repo" ∧
    (collectHash ⟨true, false, "", []⟩ envOk).1 = .ok "" ∧
    envOk.streamText = .ok "fix: adjust greeting" ∧
    ((runGo ⟨true, false, "", []⟩ envOk).1 = .ok () ∧
      (Event.printDryRun (formatShellCommand "git"
          (["git", "commit", "-m", "fix: adjust greeting"] ++
            if false = true then ["--amend"] else [])) ∈
        (runGo ⟨true, false, "", []⟩ envOk).2) ∧
      ∀ a, Event.execCommit a ∉ (runGo ⟨true, false, "", []⟩ envOk).2) :=
  ⟨rfl, rfl, rfl, rfl,
   run_dry_run_prints_no_commit ⟨true, false, "", []⟩ envOk "/repo" ""
     "fix: adjust greeting"
     [⟨Role.system, systemContent⟩, ⟨Role.user, "diff body"⟩]
     rfl rfl (by simp) rfl rfl rfl⟩

/-- An environment whose reference resolution fails the way `git rev-parse`
does for an unknown ref. -/
def envBadRef : RunEnv :=
  { envOk with resolveRef := fun _ => .error (.base "exit status 128") }

/-- Counterexample for C7: on an unresolvable ref, the error `run` returns
is the resolver's error wrapped with a "resolve ref" context, not the
resolver's error unchanged. -/
theorem run_ref_error_wrapped_cex :
    (runGo ⟨false, false, "badref", []⟩ envBadRef).1 =
      .error (.wrap "resolve ref \"badref\"" (.base "exit status 128")) ∧
    (runGo ⟨false, false, "badref", []⟩ envBadRef).1 ≠
      .error (.base "exit status 128") := by
  have h1 : (runGo ⟨false, false, "badref", []⟩ envBadRef).1 =
      .error (.wrap "resolve ref \"badref\"" (.base "exit status 128")) := rfl
  refine ⟨h1, ?_⟩
  rw [h1]
  intro h
  exact GoError.noConfusion (Except.error.inj h)

/-- C7 (amended): when the ref target cannot be resolved, `run` fails with
the underlying resolver error wrapped once in a "resolve ref %q" context,
after exactly one resolution attempt and before any compilation or network
call (the trace is the single resolveRef call). -/
theorem run_ref_error_propagation (opts : RunOpts) (env : RunEnv)
    (w : String) (e : GoError)
    (ha : opts.amend = false) (hr : opts.ref ≠ "")
    (hg : env.getwd = .ok w)
    (he : env.resolveRef opts.ref = .error e) :
    runGo opts env =
      (.error (.wrap ("resolve ref \"" ++ opts.ref ++ "\"") e),
       [Event.resolveRefCall opts.ref]) := by
  have hch : collectHash opts env =
      (.error (.wrap ("resolve ref \"" ++ opts.ref ++ "\"") e),
       [Event.resolveRefCall opts.ref]) := by
    unfold collectHash
    rw [if_neg (by simp [ha]), if_pos hr, he]
  unfold runGo
  rw [hg]
  dsimp only
  rw [if_neg (by simp [ha])]
  rw [hch]

/-- Witness for C7 (amended) at a concrete unresolvable ref. -/
theorem run_ref_error_propagation_witness :
    (⟨false, false, "badref", []⟩ : RunOpts).amend = false ∧
    ("badref" : String) ≠ "" ∧
    envBadRef.getwd = .ok "/repo" ∧
    envBadRef.resolveRef "badref" = .error (.base "exit status 128") ∧
    runGo ⟨false, false, "badref", []⟩ envBadRef =
      (.error (.wrap "resolve ref \"badref\"" (.base "exit status 128")),
       [Event.resolveRefCall "badref"]) :=
  ⟨rfl, by decide, rfl, rfl,
   run_ref_error_propagation ⟨false, false, "badref", []⟩ envBadRef "/repo"
     (.base "exit status 128") rfl (by decide) rfl rfl⟩

/-- The token budgets passed to `BuildPrompt` during a run, extracted from
the effect trace. -/
def budgetsPassed (evs : List Event) : List Nat :=
  evs.filterMap (fun ev => match ev with
    | Event.buildPromptCall _ _ _ b => some b
    | _ => none)

theorem collectHash_no_budget (opts : RunOpts) (env : RunEnv) :
    budgetsPassed (collectHash opts env).2 = [] := by
  rcases collectHash_events opts env with h | h | h <;> simp [h, budgetsPassed]

/-- Counterexample for C6: two invocations with different caller-supplied
options (and `runOptions` offers no budget field at all) both pass the same
constant 128000 to the prompt compiler, so the budget is not a
caller-supplied value. -/
theorem run_budget_hardcoded_cex :
    budgetsPassed (runGo ⟨true, false, "", ["extra hint"]⟩ envOk).2 =
      [128000] ∧
    budgetsPassed (runGo ⟨false, true, "", []⟩ envOk).2 = [128000] ∧
    (⟨true, false, "", ["extra hint"]⟩ : RunOpts) ≠ ⟨false, true, "", []⟩ := by
  refine ⟨by decide, by decide, by decide⟩

/-- C6 (amended): the token budget the prompt compiler receives is the
hard-coded constant 128000 on every invocation, whatever options the caller
supplies. -/
theorem run_budget_always_128000 (opts : RunOpts) (env : RunEnv) :
    ∀ b, b ∈ budgetsPassed (runGo opts env).2 → b = 128000 := by
  intro b hb
  have h0 := collectHash_no_budget opts env
  unfold runGo at hb
  cases hg : env.getwd with
  | error e => rw [hg] at hb; simp [budgetsPassed] at hb
  | ok w =>
    rw [hg] at hb
    dsimp only at hb
    by_cases hc : opts.ref ≠ "" ∧ opts.amend = true
    · rw [if_pos hc] at hb; simp [budgetsPassed] at hb
    · rw [if_neg hc] at hb
      cases hch : collectHash opts env with
      | mk res evs =>
        rw [hch] at hb h0
        simp only [budgetsPassed] at h0
        cases res with
        | error e =>
          dsimp only at hb
          simp [budgetsPassed, h0] at hb
        | ok hash =>
          dsimp only at hb
          cases hbp : env.buildPrompt w hash opts.amend 128000 with
          | error e =>
            rw [hbp] at hb
            simp [budgetsPassed, h0] at hb
            exact hb
          | ok bp =>
            rw [hbp] at hb
            dsimp only at hb
            cases hs : env.streamText with
            | error e =>
              rw [hs] at hb
              simp [budgetsPassed, h0] at hb
              exact hb
            | ok text =>
              rw [hs] at hb
              dsimp only at hb
              by_cases hd : opts.dryRun = true
              · rw [if_pos hd] at hb
                simp [budgetsPassed, h0] at hb
                exact hb
              · rw [if_neg hd] at hb
                cases hcm : env.commitResult with
                | error e =>
                  rw [hcm] at hb
                  simp [budgetsPassed, h0] at hb
                  exact hb
                | ok u =>
                  rw [hcm] at hb
                  simp [budgetsPassed, h0] at hb
                  exact hb

/-- Witness for C6 (amended) at a concrete invocation. -/
theorem run_budget_always_128000_witness :
    128000 ∈ budgetsPassed (runGo ⟨true, false, "", []⟩ envOk).2 ∧
      (128000 : Nat) = 128000 :=
  ⟨by decide, run_budget_always_128000 ⟨true, false, "", []⟩ envOk 128000
    (by decide)⟩

/-- An environment whose model response comes back wrapped in a code fence,
as the comment on `cleanAIMessage` says sometimes happens. -/
def envFenced : RunEnv :=
  { envOk with streamText := .ok "```\nfix: bug\n```" }

/-- C5 (failing input): when the model response is fenced, `run` passes the
raw assembled text — fences and whitespace included — to `git commit -m`,
while `cleanAIMessage` (present in the sources but never called) would have
produced the stripped, trimmed text. -/
theorem run_commits_raw_response :
    (Event.execCommit ["git", "commit", "-m", "```\nfix: bug\n```"] ∈
      (runGo ⟨false, false, "", []⟩ envFenced).2) ∧
    cleanAIMessage "```\nfix: bug\n```" = "fix: bug" ∧
    "```\nfix: bug\n```" ≠ cleanAIMessage "```\nfix: bug\n```" := by
  refine ⟨by decide, by decide, by decide⟩

/-- Trace of a successful dry run: the compiler call, the network call with
the context-extended prompt, and the dry-run printout. -/
theorem runGo_dryRun_trace (opts : RunOpts) (env : RunEnv)
    (w hash text : String) (bp : List Message) (cevs : List Event)
    (hd : opts.dryRun = true) (hg : env.getwd = .ok w)
    (hc : ¬(opts.ref ≠ "" ∧ opts.amend = true))
    (hh : collectHash opts env = (.ok hash, cevs))
    (hb : env.buildPrompt w hash opts.amend 128000 = .ok bp)
    (hs : env.streamText = .ok text) :
    (runGo opts env).2 =
      cevs ++ [Event.buildPromptCall w hash opts.amend 128000] ++
        [Event.netCall (appendContext bp opts.context)] ++
        [Event.printDryRun (formatShellCommand "git"
          (["git", "commit", "-m", text] ++
            if opts.amend = true then ["--amend"] else []))] := by
  unfold runGo
  rw [hg]
  dsimp only
  rw [if_neg hc, hh]
  dsimp only
  rw [hb]
  dsimp only
  rw [hs]
  dsimp only
  rw [if_pos hd]

/-- Counterexample for C2: a context string costing more than the entire
128000-token budget is still sent to the transport as a user message — run
appends all three supplied context strings (after a system preamble), drops
none of them, and records no warning. -/
theorem run_context_never_dropped_cex :
    (Event.netCall
        ([⟨Role.system, systemContent⟩, ⟨Role.user, "diff body"⟩] ++
          ⟨Role.system, ctxPreamble⟩ ::
            [(⟨Role.user, "c1"⟩ : Message), ⟨Role.user, "c2"⟩,
             ⟨Role.user, String.mk (List.replicate 128001 'a')⟩]) ∈
      (runGo ⟨true, false, "",
          ["c1", "c2", String.mk (List.replicate 128001 'a')]⟩ envOk).2) ∧
    estimate (String.mk (List.replicate 128001 'a')) > 128000 := by
  constructor
  · have htr := runGo_dryRun_trace
      ⟨true, false, "", ["c1", "c2", String.mk (List.replicate 128001 'a')]⟩
      envOk "/repo" "" "fix: adjust greeting"
      [⟨Role.system, systemContent⟩, ⟨Role.user, "diff body"⟩] []
      rfl rfl (fun h => h.1 rfl) rfl rfl rfl
    rw [htr]
    have hm : appendContext
        [⟨Role.system, systemContent⟩, ⟨Role.user, "diff body"⟩]
        ["c1", "c2", String.mk (List.replicate 128001 'a')] =
        [⟨Role.system, systemContent⟩, ⟨Role.user, "diff body"⟩] ++
          ⟨Role.system, ctxPreamble⟩ ::
            [(⟨Role.user, "c1"⟩ : Message), ⟨Role.user, "c2"⟩,
             ⟨Role.user, String.mk (List.replicate 128001 'a')⟩] := by
      unfold appendContext
      rw [if_pos (List.length_pos.mpr (List.cons_ne_nil _ _))]
      rfl
    rw [hm]
    simp only [List.nil_append, List.mem_append, List.mem_singleton]
    exact Or.inl (Or.inr trivial)
  · show (String.mk (List.replicate 128001 'a')).length > 128000
    rw [String.length_mk, List.length_replicate]
    omega

/-- C2 (amended): `run` appends every caller-supplied context string
unconditionally — when the list is non-empty, one system preamble message
followed by each context string as its own user message; no budget check,
no dropping, no truncation, and no warning is recorded. -/
theorem appendContext_unconditional (msgs : List Message)
    (ctxs : List String) :
    appendContext msgs ctxs =
      if ctxs.isEmpty then msgs
      else msgs ++ ⟨Role.system, ctxPreamble⟩ ::
        ctxs.map (fun c => ⟨Role.user, c⟩) := by
  unfold appendContext
  cases ctxs <;> simp

/-- Every system-role message comes before every user-role message. -/
def systemsPrecedeUsers (ms : List Message) : Prop :=
  ∀ i j, (hi : i < ms.length) → (hj : j < ms.length) →
    (ms.get ⟨i, hi⟩).role = Role.system → (ms.get ⟨j, hj⟩).role = Role.user →
    i < j

/-- Counterexample for C3: in a run with one context string, the message
list actually sent has the context preamble — a system-role message — after
the user-role diff content, so not every system message precedes all user
content. -/
theorem run_system_after_user_cex :
    (Event.netCall
        [⟨Role.system, systemContent⟩, ⟨Role.user, "diff body"⟩,
         ⟨Role.system, ctxPreamble⟩, ⟨Role.user, "hint"⟩] ∈
      (runGo ⟨true, false, "", ["hint"]⟩ envOk).2) ∧
    ¬ systemsPrecedeUsers
        [⟨Role.system, systemContent⟩, ⟨Role.user, "diff body"⟩,
         ⟨Role.system, ctxPreamble⟩, ⟨Role.user, "hint"⟩] := by
  constructor
  · decide
  · intro hp
    have h := hp 2 1 (by norm_num) (by norm_num) rfl rfl
    omega

/-- C3 (amended): every caller-supplied context string appears as its own
separate user-role message positioned strictly after the whole compiled
prompt (hence after the diff content), but the context block is introduced
by a system-role preamble sitting right after the prompt, so not every
system-role message precedes all user content. -/
theorem appendContext_positions (prompt : List Message) (ctxs : List String)
    (h : ctxs ≠ []) :
    (appendContext prompt ctxs)[prompt.length]? =
      some ⟨Role.system, ctxPreamble⟩ ∧
    ∀ c ∈ ctxs, ∃ i, prompt.length < i ∧
      (appendContext prompt ctxs)[i]? = some ⟨Role.user, c⟩ := by
  have hlen : 0 < ctxs.length := List.length_pos.mpr h
  have hac : appendContext prompt ctxs =
      prompt ++ ⟨Role.system, ctxPreamble⟩ ::
        ctxs.map (fun c => ⟨Role.user, c⟩) := by
    unfold appendContext
    rw [if_pos hlen]
  constructor
  · rw [hac, List.getElem?_append_right (Nat.le_refl _)]
    simp
  · intro c hc
    obtain ⟨k, hk, hck⟩ := List.mem_iff_getElem.mp hc
    refine ⟨prompt.length + 1 + k, by omega, ?_⟩
    rw [hac, List.getElem?_append_right (by omega)]
    have hidx : prompt.length + 1 + k - prompt.length = k + 1 := by omega
    rw [hidx]
    simp only [List.getElem?_cons_succ, List.getElem?_map]
    rw [List.getElem?_eq_getElem hk, hck]
    rfl

/-- Witness for C3 (amended) at a concrete prompt and two context strings. -/
theorem appendContext_positions_witness :
    (["first hint", "second hint"] : List String) ≠ [] ∧
    ((appendContext [⟨Role.system, "s"⟩, ⟨Role.user, "d"⟩]
        ["first hint", "second hint"])[([⟨Role.system, "s"⟩,
          (⟨Role.user, "d"⟩ : Message)] : List Message).length]? =
      some ⟨Role.system, ctxPreamble⟩ ∧
    ∀ c ∈ (["first hint", "second hint"] : List String), ∃ i,
      ([⟨Role.system, "s"⟩, (⟨Role.user, "d"⟩ : Message)] :
        List Message).length < i ∧
      (appendContext [⟨Role.system, "s"⟩, ⟨Role.user, "d"⟩]
        ["first hint", "second hint"])[i]? = some ⟨Role.user, c⟩) :=
  ⟨by decide,
   appendContext_positions [⟨Role.system, "s"⟩, ⟨Role.user, "d"⟩]
     ["first hint", "second hint"] (by decide)⟩
